import Mathlib

/-!
Verification of the disposition-table tooling
(`plan-incorporate/validate-dispositions.py` and
`plan-summarize/aggregate-dispositions.py`).

Strings are embedded as `List Char` (a Python `str` is a sequence of
characters), and each Python helper is translated into a computable Lean
function of the same name.  The two scripts share their parsing layer
verbatim, so it is embedded once.
-/

namespace Dispositions

/-- Python `str.strip()` whitespace test (ASCII whitespace characters). -/
def pyIsSpace (c : Char) : Bool :=
  c == ' ' || c == '\t' || c == '\n' || c == '\x0d' || c == '\x0b' || c == '\x0c'

/-- Remove trailing characters satisfying `pyIsSpace` (Python `rstrip`). -/
def stripEnd (l : List Char) : List Char :=
  (l.reverse.dropWhile pyIsSpace).reverse

/-- Python `str.strip()`: drop leading and trailing whitespace. -/
def pyStrip (l : List Char) : List Char :=
  stripEnd (l.dropWhile pyIsSpace)

/-- Python `str.lower()` (ASCII case folding, as used by the scripts). -/
def pyLower (l : List Char) : List Char :=
  l.map Char.toLower

/-- Python `s.split(sep)` for a single-character separator: splits on every
occurrence, keeping empty pieces (`"".split` gives one empty piece). -/
def splitOnChar (sep : Char) : List Char → List (List Char)
  | [] => [[]]
  | c :: cs =>
    if c = sep then [] :: splitOnChar sep cs
    else
      match splitOnChar sep cs with
      | [] => [[c]]
      | p :: ps => (c :: p) :: ps

/-- Python `re.split(r"[/,]", s)`: split on every `/` or `,`. -/
def splitOnSeps : List Char → List (List Char)
  | [] => [[]]
  | c :: cs =>
    if c = '/' ∨ c = ',' then [] :: splitOnSeps cs
    else
      match splitOnSeps cs with
      | [] => [[c]]
      | p :: ps => (c :: p) :: ps

/-- `parts[1:]` when the leading piece is blank (artifact of a leading pipe):
`if parts and parts[0].strip() == "": parts = parts[1:]`. -/
def dropLeadingEmpty : List (List Char) → List (List Char)
  | [] => []
  | p :: ps => if pyStrip p = [] then ps else p :: ps

/-- `parts[:-1]` when the trailing piece is blank (artifact of a trailing
pipe): `if parts and parts[-1].strip() == "": parts = parts[:-1]`. -/
def dropTrailingEmpty (parts : List (List Char)) : List (List Char) :=
  match parts.getLast? with
  | some p => if pyStrip p = [] then parts.dropLast else parts
  | none => parts

/-- `parse_table_row` (identical in both scripts): strip the line, require a
leading pipe, split on `|`, drop blank leading/trailing pieces, strip each
remaining cell. -/
def parse_table_row (line : List Char) : Option (List (List Char)) :=
  match pyStrip line with
  | [] => none
  | c :: cs =>
    if c = '|' then
      some ((dropTrailingEmpty (dropLeadingEmpty (splitOnChar '|' (c :: cs)))).map pyStrip)
    else none

/-- One cell of a separator row: `re.match(r"^:?-+:?$", c)`. -/
def isSepCell (cell : List Char) : Bool :=
  let body := match cell with
    | ':' :: r => r
    | r => r
  let dashes := body.takeWhile (· == '-')
  let rest := body.dropWhile (· == '-')
  decide (dashes ≠ []) && (decide (rest = []) || decide (rest = [':']))

/-- `is_separator_row`: every cell matches the dash pattern. -/
def is_separator_row (cells : List (List Char)) : Bool :=
  cells.all isSepCell

/-- `normalize_col_name`: strip and lowercase a header cell. -/
def normalize_col_name (name : List Char) : List Char :=
  pyLower (pyStrip name)

/-- `find_column_index`: index of the first header whose normalized name is
among the candidates. -/
def find_column_index (headers : List (List Char)) (candidates : List (List Char)) :
    Option Nat :=
  headers.findIdx? (fun h => candidates.contains (normalize_col_name h))

/-- `RECOGNIZED_SEVERITIES` (em-dash `—` included). -/
def RECOGNIZED_SEVERITIES : List (List Char) :=
  ["p0".data, "p1".data, "p2".data, "p3".data,
   "critical".data, "blocker".data, "blocking".data,
   "high".data, "medium".data, "low".data,
   "info".data, "informational".data,
   "non-blocking".data, "nonblocking".data,
   "note".data, "question".data, "gap".data,
   "n/a".data, "none".data, "—".data]

/-- `RECOGNIZED_DISPOSITIONS`. -/
def RECOGNIZED_DISPOSITIONS : List (List Char) :=
  ["incorporated".data, "incorporate".data, "not incorporated".data,
   "deferred".data, "already present".data, "acknowledged".data, "n/a".data]

/-- `DISPOSITION_PREFIXES`: accepted as leading fragments of a disposition. -/
def DISPOSITION_PFXS : List (List Char) :=
  ["incorporated".data, "incorporate".data, "not incorporated".data]

/-- `classify_severity`: verbatim membership first, then each `/,`-separated
part (stripped), first match winning. -/
def classify_severity (val : List Char) : Bool × List Char :=
  let v := pyLower (pyStrip val)
  if RECOGNIZED_SEVERITIES.contains v then (true, v)
  else
    match ((splitOnSeps v).map pyStrip).find?
        (fun p => RECOGNIZED_SEVERITIES.contains p) with
    | some p => (true, p)
    | none => (false, v)

/-- `classify_disposition`: verbatim membership, then the accepted leading
fragments, first match winning. -/
def classify_disposition (val : List Char) : Bool × List Char :=
  let v := pyLower (pyStrip val)
  if RECOGNIZED_DISPOSITIONS.contains v then (true, v)
  else
    match DISPOSITION_PFXS.find? (fun p => p.isPrefixOf v) with
    | some p => (true, p)
    | none => (false, v)

/-- `SEVERITY_MAP` as an association list (raw lowercase form → canonical). -/
def SEVERITY_MAP : List (List Char × List Char) :=
  [("p0".data, "P0".data), ("critical".data, "P0".data),
   ("blocker".data, "P0".data), ("blocking".data, "P0".data),
   ("p1".data, "P1".data), ("high".data, "P1".data),
   ("p2".data, "P2".data), ("medium".data, "P2".data),
   ("p3".data, "P3".data), ("low".data, "P3".data),
   ("info".data, "Info".data), ("informational".data, "Info".data),
   ("non-blocking".data, "Info".data), ("nonblocking".data, "Info".data),
   ("note".data, "Info".data), ("question".data, "Info".data),
   ("gap".data, "Info".data),
   ("n/a".data, "N/A".data), ("none".data, "N/A".data), ("—".data, "N/A".data)]

/-- Lookup in `SEVERITY_MAP`. -/
def severityMapLookup (k : List Char) : Option (List Char) :=
  (SEVERITY_MAP.find? (fun e => e.1 = k)).map Prod.snd

/-- The part-scanning loop of `normalize_severity`: first `/,`-part whose
stripped form is in `SEVERITY_MAP` yields its canonical value. -/
def normSevParts : List (List Char) → Option (List Char)
  | [] => none
  | p :: ps =>
    match severityMapLookup (pyStrip p) with
    | some c => some c
    | none => normSevParts ps

/-- `normalize_severity` (aggregator): compound parts first, then the whole
value verbatim, otherwise the stripped raw value passes through. -/
def normalize_severity (raw : List Char) : List Char :=
  let v := pyLower (pyStrip raw)
  match normSevParts (splitOnSeps v) with
  | some c => c
  | none =>
    match severityMapLookup v with
    | some c => c
    | none => pyStrip raw

/-- `normalize_disposition` (aggregator). -/
def normalize_disposition (raw : List Char) : List Char :=
  let v := pyLower (pyStrip raw)
  if v = "incorporated".data ∨ v = "incorporate".data ∨
      ("incorporated".data).isPrefixOf v then "Incorporated".data
  else if v = "not incorporated".data then "Not Incorporated".data
  else if v = "deferred".data then "Deferred".data
  else if v = "already present".data ∨ v = "acknowledged".data then "Incorporated".data
  else if v = "n/a".data then "N/A".data
  else pyStrip raw

/-! ### The disposition-section heading, `DISPOSITION_HEADER_RE`

`^##\s+(?:\d+[a-z]?[.)]\s*)?(?:(?:Round\s+(\d+)\s+)?Review\s+Disposition|R(\d+)\s+Review\s+Disposition)\s*$`
with `re.IGNORECASE`, anchored at the start of the raw line (`re.match`).
The regex is deterministic apart from two local choices (the optional
`[a-z]` inside the section number, and the alternation), which are tried
in the regex engine's order. -/

/-- Consume `pat` case-insensitively from the front of `l`. -/
def stripCI : List Char → List Char → Option (List Char)
  | [], l => some l
  | _ :: _, [] => none
  | p :: ps, c :: cs => if c.toLower = p.toLower then stripCI ps cs else none

/-- `\s+`: one or more whitespace characters. -/
def wsPlus : List Char → Option (List Char)
  | [] => none
  | c :: cs => if pyIsSpace c then some (cs.dropWhile pyIsSpace) else none

/-- Value of a non-empty digit run (Python `int`). -/
def digitsToNat (ds : List Char) : Nat :=
  ds.foldl (fun n c => n * 10 + (c.toNat - '0'.toNat)) 0

/-- `(\d+)`: a maximal non-empty digit run and its value. -/
def digits1 (l : List Char) : Option (Nat × List Char) :=
  let ds := l.takeWhile Char.isDigit
  if ds.isEmpty then none else some (digitsToNat ds, l.dropWhile Char.isDigit)

/-- `(?:\d+[a-z]?[.)]\s*)?`: the optional section number such as `15)`,
`23.`, `26a)`.  Returns the remainder on success, the input unchanged when
the group does not match. -/
def sectionNumberOpt (l : List Char) : List Char :=
  match digits1 l with
  | none => l
  | some (_, rest) =>
    let closing : List Char → Option (List Char) := fun r =>
      match r with
      | c :: cs => if c = '.' ∨ c = ')' then some (cs.dropWhile pyIsSpace) else none
      | [] => none
    match rest with
    | c :: cs =>
      if c.isAlpha then
        match closing cs with
        | some r => r
        | none =>
          match closing rest with
          | some r => r
          | none => l
      else
        match closing rest with
        | some r => r
        | none => l
    | [] => l

/-- `Review\s+Disposition`, case-insensitively. -/
def reviewDisposition (l : List Char) : Option (List Char) := do
  let l ← stripCI "review".data l
  let l ← wsPlus l
  stripCI "disposition".data l

/-- `\s*$`: only whitespace remains. -/
def wsEnd (l : List Char) : Bool :=
  (l.dropWhile pyIsSpace).isEmpty

/-- `DISPOSITION_HEADER_RE.match` combined with `extract_round_number`:
`none` when the line is not a disposition heading, otherwise
`some round?` where `round?` is the captured round number, if any. -/
def match_disposition_header (line : List Char) : Option (Option Nat) :=
  match stripCI "##".data line with
  | none => none
  | some l =>
    match wsPlus l with
    | none => none
    | some l =>
      let l := sectionNumberOpt l
      let viaRound : Option Nat := do
        let l2 ← stripCI "round".data l
        let l2 ← wsPlus l2
        let (n, l2) ← digits1 l2
        let l2 ← wsPlus l2
        let l2 ← reviewDisposition l2
        if wsEnd l2 then some n else none
      match viaRound with
      | some n => some (some n)
      | none =>
        match (do
            let l2 ← reviewDisposition l
            if wsEnd l2 then some () else none) with
        | some _ => some none
        | none =>
          match (do
              let l2 ← stripCI "r".data l
              let (n, l2) ← digits1 l2
              let l2 ← wsPlus l2
              let l2 ← reviewDisposition l2
              if wsEnd l2 then some n else none) with
          | some n => some (some n)
          | none => none

/-! ### Data model: rows and tables (the dicts built by
`find_disposition_tables`). -/

/-- One data row: source line index (0-based) and its parsed cells. -/
structure Row where
  line : Nat
  cells : List (List Char)
deriving DecidableEq

/-- One parsed disposition section, as returned by
`find_disposition_tables`. -/
structure Table where
  round : Option Nat
  header_line : Nat
  section_header_line : Nat
  header_cells : List (List Char)
  separator_line : Option Nat
  rows : List Row
  col_count : Nat
deriving DecidableEq

/-- The record appended when no well-formed table follows a heading. -/
def headerlessTable (round : Option Nat) (sectionLine : Nat) : Table :=
  { round := round, header_line := sectionLine,
    section_header_line := sectionLine, header_cells := [],
    separator_line := none, rows := [], col_count := 0 }

/-! ### The table locator, `find_disposition_tables`

The Python `while i < len(lines)` loop is a line-scanning state machine;
it is embedded as a fold over the line sequence with an explicit state.
The correspondence to the index-based loop:

* `scanning` — the top of the loop, no section in progress;
* `skipBlank r sec` — a heading matched at line `sec` with round `r`; blank
  lines are being consumed, and the first non-blank line is attempted as a
  table header row (a falsy parse records a headerless table and moves on);
* `expectSep …` — a header row parsed; the next line must be a separator
  row, otherwise a headerless table is recorded and that line is consumed;
* `inData …` — separator accepted; lines are consumed as data rows
  (separator-shaped rows are skipped) until one fails to parse, which ends
  the table and is re-examined as a possible new heading (the `continue`
  in the source skips the `i += 1`). -/

inductive ScanState where
  | scanning : ScanState
  | skipBlank (round : Option Nat) (sectionLine : Nat) : ScanState
  | expectSep (round : Option Nat) (sectionLine headerLine : Nat)
      (headerCells : List (List Char)) : ScanState
  | inData (round : Option Nat) (sectionLine headerLine : Nat)
      (headerCells : List (List Char)) (sepLine : Nat) (rows : List Row) : ScanState

/-- Process one line at index `pos`: emitted tables plus the next state. -/
def stepLine (pos : Nat) (line : List Char) : ScanState → List Table × ScanState
  | ScanState.scanning =>
    match match_disposition_header line with
    | some r => ([], ScanState.skipBlank r pos)
    | none => ([], ScanState.scanning)
  | ScanState.skipBlank r sec =>
    if pyStrip line = [] then ([], ScanState.skipBlank r sec)
    else
      match parse_table_row line with
      | some (c :: cs) => ([], ScanState.expectSep r sec pos (c :: cs))
      | some [] => ([headerlessTable r sec], ScanState.scanning)
      | none => ([headerlessTable r sec], ScanState.scanning)
  | ScanState.expectSep r sec hl cells =>
    match parse_table_row line with
    | some sepCells =>
      if sepCells ≠ [] ∧ is_separator_row sepCells then
        ([], ScanState.inData r sec hl cells pos [])
      else ([headerlessTable r sec], ScanState.scanning)
    | none => ([headerlessTable r sec], ScanState.scanning)
  | ScanState.inData r sec hl cells sl rows =>
    match parse_table_row line with
    | some rowCells =>
      if is_separator_row rowCells then
        ([], ScanState.inData r sec hl cells sl rows)
      else
        ([], ScanState.inData r sec hl cells sl (rows ++ [⟨pos, rowCells⟩]))
    | none =>
      let tbl : Table :=
        { round := r, header_line := hl, section_header_line := sec,
          header_cells := cells, separator_line := some sl,
          rows := rows, col_count := cells.length }
      match match_disposition_header line with
      | some r' => ([tbl], ScanState.skipBlank r' pos)
      | none => ([tbl], ScanState.scanning)

/-- Tables still pending when the input ends. -/
def finalizeState : ScanState → List Table
  | ScanState.scanning => []
  | ScanState.skipBlank r sec => [headerlessTable r sec]
  | ScanState.expectSep r sec _ _ => [headerlessTable r sec]
  | ScanState.inData r sec hl cells sl rows =>
    [{ round := r, header_line := hl, section_header_line := sec,
       header_cells := cells, separator_line := some sl,
       rows := rows, col_count := cells.length }]

/-- Scan the remaining lines from index `pos` in state `st`. -/
def scanLines (pos : Nat) (st : ScanState) : List (List Char) → List Table
  | [] => finalizeState st
  | l :: ls =>
    let (ts, st') := stepLine pos l st
    ts ++ scanLines (pos + 1) st' ls

/-- `find_disposition_tables` (identical in both scripts). -/
def find_disposition_tables (lines : List (List Char)) : List Table :=
  scanLines 0 ScanState.scanning lines

/-! ### Validator (`validate_table`)

The error strings built by the source are abstracted into one constructor
per `errors.append` site, carrying the data that distinguishes the error.
The order and number of errors is preserved exactly. -/

inductive VError where
  | missingSeverity (headerCells : List (List Char)) : VError
  | missingDisposition (headerCells : List (List Char)) : VError
  | colCountMismatch (line expected got : Nat) : VError
  | badSeverity (line : Nat) (raw : List Char) : VError
  | badDisposition (line : Nat) (raw : List Char) : VError
deriving DecidableEq

/-- The body of the row loop in `validate_table`: a column-count mismatch
yields a single error and `continue`s; otherwise the severity and
disposition cells are classified, each unrecognized value yielding one
error. -/
def row_errors (expected si di : Nat) (row : Row) : List VError :=
  if row.cells.length ≠ expected then
    [VError.colCountMismatch (row.line + 1) expected row.cells.length]
  else
    (if (classify_severity (row.cells.getD si [])).1 = false then
      [VError.badSeverity (row.line + 1) (row.cells.getD si [])] else []) ++
    (if (classify_disposition (row.cells.getD di [])).1 = false then
      [VError.badDisposition (row.line + 1) (row.cells.getD di [])] else [])

/-- `validate_table`: a headerless table is valid; a missing mandatory
column is fatal for the table (rows unchecked); otherwise each row is
checked in order. -/
def validate_table (t : Table) : List VError :=
  if t.header_cells = [] then []
  else
    let sev_idx := find_column_index t.header_cells ["severity".data]
    let disp_idx := find_column_index t.header_cells ["disposition".data]
    match sev_idx, disp_idx with
    | some si, some di => t.rows.flatMap (row_errors t.col_count si di)
    | _, _ =>
      (if sev_idx = none then [VError.missingSeverity t.header_cells] else []) ++
      (if disp_idx = none then [VError.missingDisposition t.header_cells] else [])

/-! ### Aggregator: findings (`parse_file_findings`) -/

/-- One finding record extracted from a valid row. -/
structure Finding where
  file : List Char
  round : Nat
  finding_id : List Char
  reviewer : Option (List Char)
  severity : List Char
  severity_raw : List Char
  summary : List Char
  disposition : List Char
  disposition_raw : List Char
  notes : List Char
deriving DecidableEq

/-- The row body of `parse_file_findings`: a cell-count mismatch drops the
row, otherwise one `Finding` is built. -/
def rowFinding (file : List Char) (round col_count si di : Nat)
    (fi ri su no : Option Nat) (row : Row) : Option Finding :=
  if row.cells.length ≠ col_count then none
  else some
    { file := file, round := round,
      finding_id := match fi with | some i => row.cells.getD i [] | none => [],
      reviewer := ri.map (fun i => row.cells.getD i []),
      severity := normalize_severity (row.cells.getD si []),
      severity_raw := pyStrip (row.cells.getD si []),
      summary := match su with | some i => row.cells.getD i [] | none => [],
      disposition := normalize_disposition (row.cells.getD di []),
      disposition_raw := pyStrip (row.cells.getD di []),
      notes := match no with | some i => row.cells.getD i [] | none => [] }

/-- The table loop of `parse_file_findings`, with the per-file
`unlabeled_round` accumulator.  Headerless tables are skipped before the
round is assigned; tables without resolvable severity/disposition columns
are skipped after it. -/
def findingsLoop (file : List Char) : List Table → Nat → List Finding
  | [], _ => []
  | t :: ts, unlabeled_round =>
    if t.header_cells = [] then findingsLoop file ts unlabeled_round
    else
      let round_num := t.round.getD unlabeled_round
      let ur' := max unlabeled_round (round_num + 1)
      let si? := find_column_index t.header_cells ["severity".data]
      let di? := find_column_index t.header_cells ["disposition".data]
      match si?, di? with
      | some si, some di =>
        let su := find_column_index t.header_cells ["summary".data, "description".data]
        let ri := find_column_index t.header_cells ["reviewer".data]
        let no := find_column_index t.header_cells
          ["notes".data, "note".data, "comments".data, "comment".data]
        let fi := find_column_index t.header_cells
          ["finding id".data, "finding".data, "#".data, "id".data]
        (t.rows.filterMap (rowFinding file round_num t.col_count si di fi ri su no)) ++
          findingsLoop file ts ur'
      | _, _ => findingsLoop file ts ur'

/-- `parse_file_findings` on in-memory lines. -/
def parse_file_findings (file : List Char) (lines : List (List Char)) : List Finding :=
  findingsLoop file (find_disposition_tables lines) 1

/-- The round-assignment part of the table loop in `parse_file_findings`
(lines 241–248 of the aggregator): each header-bearing table paired with
the round number it is processed under. -/
def assignRounds : List Table → Nat → List (Table × Nat)
  | [], _ => []
  | t :: ts, unlabeled_round =>
    if t.header_cells = [] then assignRounds ts unlabeled_round
    else
      let round_num := t.round.getD unlabeled_round
      (t, round_num) :: assignRounds ts (max unlabeled_round (round_num + 1))

/-! ### Aggregator: convergence series (`aggregate_findings`) -/

/-- The rendered trend: `—` (no trend), `↓pct%`, or `↑pct%`. -/
inductive Trend where
  | dash : Trend
  | down (pct : ℚ) : Trend
  | up (pct : ℚ) : Trend
deriving DecidableEq

/-- One entry of the convergence table. -/
structure ConvEntry where
  round : Nat
  total : Nat
  incorporated : Nat
  not_incorporated : Nat
  deferred : Nat
  na : Nat
  trend : Trend
deriving DecidableEq

/-- `per_round[r]["total"]`: findings in round `r`. -/
def roundTotal (fs : List Finding) (r : Nat) : Nat :=
  (fs.filter (fun f => f.round = r)).length

/-- `per_round[r]["by_disposition"][d]`. -/
def dispCount (fs : List Finding) (r : Nat) (d : List Char) : Nat :=
  (fs.filter (fun f => f.round = r ∧ f.disposition = d)).length

/-- `sorted(per_round.keys())`: the observed rounds, ascending. -/
def sortedRounds (fs : List Finding) : List Nat :=
  List.insertionSort (· ≤ ·) (fs.map Finding.round).dedup

/-- The trend computation of the convergence loop: previous total absent
or zero gives no trend; otherwise the percentage change, non-positive
rendered as a down trend of its absolute value. -/
def trendOf (prev : Option Nat) (total : Nat) : Trend :=
  match prev with
  | none => Trend.dash
  | some p =>
    if 0 < p then
      let pct : ℚ := (((total : ℚ) - (p : ℚ)) / (p : ℚ)) * 100
      if pct ≤ 0 then Trend.down |pct| else Trend.up pct
    else Trend.dash

/-- The entry appended for round `r` when the previous total is `prev`. -/
def convEntry (fs : List Finding) (r : Nat) (prev : Option Nat) : ConvEntry :=
  { round := r, total := roundTotal fs r,
    incorporated := dispCount fs r "Incorporated".data,
    not_incorporated := dispCount fs r "Not Incorporated".data,
    deferred := dispCount fs r "Deferred".data,
    na := dispCount fs r "N/A".data,
    trend := trendOf prev (roundTotal fs r) }

/-- The convergence loop over the sorted rounds, carrying `prev_total`. -/
def convergenceAux (fs : List Finding) : List Nat → Option Nat → List ConvEntry
  | [], _ => []
  | r :: rest, prev =>
    convEntry fs r prev :: convergenceAux fs rest (some (roundTotal fs r))

/-- The convergence series of `aggregate_findings`. -/
def convergence (fs : List Finding) : List ConvEntry :=
  convergenceAux fs (sortedRounds fs) none

/-! ## Claims -/

/-- Claim C9: severity and disposition normalization are idempotent on the
canonical labels: each of P0, P1, P2, P3, Info, N/A is fixed by
`normalize_severity`, and each of Incorporated, Not Incorporated,
Deferred, N/A is fixed by `normalize_disposition`. -/
theorem normalization_idempotent_on_canonical :
    (normalize_severity "P0".data = "P0".data ∧
     normalize_severity "P1".data = "P1".data ∧
     normalize_severity "P2".data = "P2".data ∧
     normalize_severity "P3".data = "P3".data ∧
     normalize_severity "Info".data = "Info".data ∧
     normalize_severity "N/A".data = "N/A".data) ∧
    (normalize_disposition "Incorporated".data = "Incorporated".data ∧
     normalize_disposition "Not Incorporated".data = "Not Incorporated".data ∧
     normalize_disposition "Deferred".data = "Deferred".data ∧
     normalize_disposition "N/A".data = "N/A".data) := by
  decide

/-- Claim C2, counterexample: the aggregator's normalizer does not map a
value merely prefixed by `not incorporated` to the canonical
`Not Incorporated`; it passes it through as raw text. -/
theorem normalize_disposition_prefix_counterexample :
    normalize_disposition "Not Incorporated (Option B)".data
      = "Not Incorporated (Option B)".data ∧
    normalize_disposition "Not Incorporated (Option B)".data
      ≠ "Not Incorporated".data := by
  decide

/-- Claim C2, amended: after trimming and lowercasing, `incorporated`,
`incorporate` and any `incorporated`-prefixed value map to `Incorporated`;
`not incorporated` maps to `Not Incorporated` only when exact; `deferred`
maps to `Deferred`; `already present` and `acknowledged` map to
`Incorporated`; `n/a` maps to `N/A`; every other value (including values
merely prefixed by `not incorporated`) passes through as its trimmed raw
text. -/
theorem normalize_disposition_mapping (raw : List Char) :
    (pyLower (pyStrip raw) = "incorporated".data ∨
     pyLower (pyStrip raw) = "incorporate".data ∨
     ("incorporated".data).isPrefixOf (pyLower (pyStrip raw)) = true →
      normalize_disposition raw = "Incorporated".data) ∧
    (pyLower (pyStrip raw) = "not incorporated".data →
      normalize_disposition raw = "Not Incorporated".data) ∧
    (pyLower (pyStrip raw) = "deferred".data →
      normalize_disposition raw = "Deferred".data) ∧
    (pyLower (pyStrip raw) = "already present".data ∨
     pyLower (pyStrip raw) = "acknowledged".data →
      normalize_disposition raw = "Incorporated".data) ∧
    (pyLower (pyStrip raw) = "n/a".data →
      normalize_disposition raw = "N/A".data) ∧
    (¬(pyLower (pyStrip raw) = "incorporated".data ∨
       pyLower (pyStrip raw) = "incorporate".data ∨
       ("incorporated".data).isPrefixOf (pyLower (pyStrip raw)) = true) →
     pyLower (pyStrip raw) ≠ "not incorporated".data →
     pyLower (pyStrip raw) ≠ "deferred".data →
     ¬(pyLower (pyStrip raw) = "already present".data ∨
       pyLower (pyStrip raw) = "acknowledged".data) →
     pyLower (pyStrip raw) ≠ "n/a".data →
      normalize_disposition raw = pyStrip raw) := by
  refine ⟨?_, ?_, ?_, ?_, ?_, ?_⟩
  · intro h
    simp only [normalize_disposition]
    rw [if_pos h]
  · intro h
    simp only [normalize_disposition]
    rw [h, if_neg (by decide), if_pos rfl]
  · intro h
    simp only [normalize_disposition]
    rw [h, if_neg (by decide), if_neg (by decide), if_pos rfl]
  · intro h
    simp only [normalize_disposition]
    rcases h with h | h <;>
      rw [h, if_neg (by decide), if_neg (by decide), if_neg (by decide),
        if_pos (by decide)]
  · intro h
    simp only [normalize_disposition]
    rw [h, if_neg (by decide), if_neg (by decide), if_neg (by decide),
      if_neg (by decide), if_pos rfl]
  · intro h1 h2 h3 h4 h5
    simp only [normalize_disposition]
    rw [if_neg h1, if_neg h2, if_neg h3, if_neg h4, if_neg h5]

/-- Witness for the amended C2 mapping at concrete inputs. -/
theorem normalize_disposition_mapping_witness :
    normalize_disposition "Incorporated (Option B)".data = "Incorporated".data ∧
    normalize_disposition " not incorporated ".data = "Not Incorporated".data ∧
    normalize_disposition "zzz".data = pyStrip "zzz".data :=
  ⟨(normalize_disposition_mapping "Incorporated (Option B)".data).1 (by decide),
   (normalize_disposition_mapping " not incorporated ".data).2.1 (by decide),
   (normalize_disposition_mapping "zzz".data).2.2.2.2.2 (by decide) (by decide)
     (by decide) (by decide) (by decide)⟩

/-- Claim C7: a severity value is accepted verbatim when its
trimmed/lowercased form is in the recognized set; otherwise it is split on
`/` or `,` and accepted exactly when some stripped part is in the set, the
first matching part winning; `P0/Blocker` is valid and normalizes to the
canonical `P0`. -/
theorem classify_severity_spec (val : List Char) :
    (RECOGNIZED_SEVERITIES.contains (pyLower (pyStrip val)) = true →
      classify_severity val = (true, pyLower (pyStrip val))) ∧
    (RECOGNIZED_SEVERITIES.contains (pyLower (pyStrip val)) = false →
      ∀ p, ((splitOnSeps (pyLower (pyStrip val))).map pyStrip).find?
          (fun q => RECOGNIZED_SEVERITIES.contains q) = some p →
        classify_severity val = (true, p)) ∧
    (RECOGNIZED_SEVERITIES.contains (pyLower (pyStrip val)) = false →
      ((splitOnSeps (pyLower (pyStrip val))).map pyStrip).find?
          (fun q => RECOGNIZED_SEVERITIES.contains q) = none →
        classify_severity val = (false, pyLower (pyStrip val))) ∧
    (classify_severity "P0/Blocker".data = (true, "p0".data) ∧
     normalize_severity "P0/Blocker".data = "P0".data) := by
  refine ⟨?_, ?_, ?_, by decide⟩
  · intro h
    simp only [classify_severity]
    rw [if_pos h]
  · intro h p hf
    simp only [classify_severity]
    rw [if_neg (by rw [h]; exact Bool.false_ne_true), hf]
  · intro h hf
    simp only [classify_severity]
    rw [if_neg (by rw [h]; exact Bool.false_ne_true), hf]

/-- Witness for C7 at concrete inputs. -/
theorem classify_severity_spec_witness :
    classify_severity "P0".data = (true, "p0".data) ∧
    classify_severity " High / Medium ".data = (true, "high".data) ∧
    classify_severity "weird".data = (false, "weird".data) :=
  ⟨(classify_severity_spec "P0".data).1 (by decide),
   (classify_severity_spec " High / Medium ".data).2.1 (by decide)
     "high".data (by decide),
   (classify_severity_spec "weird".data).2.2.1 (by decide) (by decide)⟩

/-- Claim C6: a row whose cell count differs from the table's column count
is never partially processed — the validator emits exactly the one
column-count error for it (no severity or disposition check), and the
aggregator's row extraction produces no `Finding` from it. -/
theorem row_count_mismatch_spec (expected si di : Nat) (file : List Char)
    (rnd : Nat) (fi ri su no : Option Nat) (row : Row)
    (h : row.cells.length ≠ expected) :
    row_errors expected si di row
      = [VError.colCountMismatch (row.line + 1) expected row.cells.length] ∧
    rowFinding file rnd expected si di fi ri su no row = none := by
  constructor
  · simp only [row_errors]
    rw [if_pos h]
  · simp only [rowFinding]
    rw [if_pos h]

/-- Witness for C6 at a concrete short row in a three-column table. -/
theorem row_count_mismatch_spec_witness :
    row_errors 3 1 2 ⟨7, ["F1".data, "P0".data]⟩
      = [VError.colCountMismatch 8 3 2] ∧
    rowFinding "f.md".data 1 3 1 2 (some 0) none none none
      ⟨7, ["F1".data, "P0".data]⟩ = none :=
  row_count_mismatch_spec 3 1 2 "f.md".data 1 (some 0) none none none
    ⟨7, ["F1".data, "P0".data]⟩ (by decide)

/-- Claim C5, counterexample: a table with non-empty header cells that
lacks the disposition column can produce two structural errors, not
exactly one, when the severity column is also missing. -/
theorem missing_disposition_counterexample :
    find_column_index ["Foo".data] ["disposition".data] = none ∧
    ["Foo".data] ≠ ([] : List (List Char)) ∧
    (validate_table
      { round := none, header_line := 1, section_header_line := 0,
        header_cells := ["Foo".data], separator_line := some 2,
        rows := [⟨3, ["x".data, "y".data]⟩], col_count := 1 }).length ≠ 1 := by
  decide

/-- Claim C5, amended: for a table with non-empty header cells whose
disposition column cannot be resolved, no row-level check is performed and
the table's error list is structural only: exactly the one missing-column
error when the severity column resolves, and exactly the two
missing-column errors when it does not — in either case independent of
the table's rows. -/
theorem missing_disposition_errors (t : Table)
    (hne : t.header_cells ≠ [])
    (hd : find_column_index t.header_cells ["disposition".data] = none) :
    (find_column_index t.header_cells ["severity".data] ≠ none →
      validate_table t = [VError.missingDisposition t.header_cells]) ∧
    (find_column_index t.header_cells ["severity".data] = none →
      validate_table t = [VError.missingSeverity t.header_cells,
        VError.missingDisposition t.header_cells]) := by
  constructor
  · intro hs
    cases hsv : find_column_index t.header_cells ["severity".data] with
    | none => exact absurd hsv hs
    | some si =>
      simp only [validate_table]
      rw [if_neg hne]
      rw [hsv, hd]
      simp
  · intro hs
    simp only [validate_table]
    rw [if_neg hne]
    rw [hs, hd]
    simp

/-- Witness for the amended C5 at concrete tables. -/
theorem missing_disposition_errors_witness :
    validate_table
      { round := none, header_line := 1, section_header_line := 0,
        header_cells := ["Severity".data], separator_line := some 2,
        rows := [⟨3, ["boom".data]⟩], col_count := 1 }
      = [VError.missingDisposition ["Severity".data]] ∧
    validate_table
      { round := none, header_line := 1, section_header_line := 0,
        header_cells := ["Foo".data], separator_line := some 2,
        rows := [⟨3, ["x".data, "y".data]⟩], col_count := 1 }
      = [VError.missingSeverity ["Foo".data],
         VError.missingDisposition ["Foo".data]] :=
  ⟨(missing_disposition_errors _ (by decide) (by decide)).1 (by decide),
   (missing_disposition_errors _ (by decide) (by decide)).2 (by decide)⟩

/-- Every round value assigned under an unlabeled table is at least the
current accumulator value. -/
lemma assignRounds_unlabeled_ge :
    ∀ (ts : List Table) (ur : Nat), ∀ p ∈ assignRounds ts ur,
      p.1.round = none → ur ≤ p.2 := by
  intro ts
  induction ts with
  | nil => intro ur p hp; simp [assignRounds] at hp
  | cons t ts ih =>
    intro ur p hp hnone
    by_cases hh : t.header_cells = []
    · rw [assignRounds, if_pos hh] at hp
      exact ih ur p hp hnone
    · rw [assignRounds, if_neg hh] at hp
      rcases List.mem_cons.mp hp with rfl | hmem
      · simp only at hnone
        simp [hnone]
      · have := ih (max ur (t.round.getD ur + 1)) p hmem hnone
        omega

/-- Pairwise relation carried by the assignment list: among unlabeled
tables, assigned rounds strictly increase. -/
lemma assignRounds_pairwise :
    ∀ (ts : List Table) (ur : Nat),
      List.Pairwise
        (fun p q : Table × Nat =>
          p.1.round = none → q.1.round = none → p.2 < q.2)
        (assignRounds ts ur) := by
  intro ts
  induction ts with
  | nil => intro ur; simp [assignRounds]
  | cons t ts ih =>
    intro ur
    by_cases hh : t.header_cells = []
    · rw [assignRounds, if_pos hh]; exact ih ur
    · rw [assignRounds, if_neg hh]
      refine List.Pairwise.cons ?_ (ih _)
      intro q hq hpn hqn
      have hge := assignRounds_unlabeled_ge ts (max ur (t.round.getD ur + 1)) q hq hqn
      simp only [hpn, Option.getD_none] at hge ⊢
      omega

/-- Claim C3: during one file's aggregation pass, unlabeled header-bearing
tables receive strictly increasing round numbers in document order (the
per-file accumulator starts at 1 and is maintained as a running maximum),
and the first processed table, when unlabeled, is assigned round 1. -/
theorem unlabeled_round_assignment_increasing (ts : List Table) :
    List.Pairwise (· < ·)
      (((assignRounds ts 1).filter (fun p => p.1.round.isNone)).map Prod.snd) ∧
    (∀ p rest, assignRounds ts 1 = p :: rest → p.1.round = none → p.2 = 1) := by
  constructor
  · rw [List.pairwise_map]
    have hfil := (assignRounds_pairwise ts 1).filter
      (fun p : Table × Nat => p.1.round.isNone)
    refine List.Pairwise.imp_of_mem ?_ hfil
    intro p q hp hq hrel
    exact hrel (Option.isNone_iff_eq_none.mp ((List.mem_filter.mp hp).2))
      (Option.isNone_iff_eq_none.mp ((List.mem_filter.mp hq).2))
  · intro p rest heq hnone
    induction ts with
    | nil => simp [assignRounds] at heq
    | cons t ts ih =>
      by_cases hh : t.header_cells = []
      · rw [assignRounds, if_pos hh] at heq
        exact ih heq
      · rw [assignRounds, if_neg hh] at heq
        have hp : p = (t, t.round.getD 1) :=
          ((List.cons.injEq _ _ _ _).mp heq |>.1).symm
        rw [hp] at hnone ⊢
        simp only at hnone ⊢
        rw [hnone]
        rfl

/-- An unlabeled two-column table used by example documents. -/
def exTblU : Table :=
  { round := none, header_line := 1, section_header_line := 0,
    header_cells := ["Severity".data, "Disposition".data],
    separator_line := some 2, rows := [⟨3, ["P0".data, "Deferred".data]⟩],
    col_count := 2 }

/-- The same table labeled as round 5. -/
def exTblR5 : Table :=
  { exTblU with round := some 5 }

/-- Witness for C3: a file with an unlabeled table, a round-5 table, and
another unlabeled table assigns rounds 1 and 6 to the unlabeled tables. -/
theorem unlabeled_round_assignment_increasing_witness :
    List.Pairwise (· < ·)
      (((assignRounds [exTblU, exTblR5, exTblU] 1).filter
        (fun p => p.1.round.isNone)).map Prod.snd) ∧
    ((exTblU, 1) : Table × Nat).2 = 1 :=
  ⟨(unlabeled_round_assignment_increasing [exTblU, exTblR5, exTblU]).1,
   (unlabeled_round_assignment_increasing [exTblU, exTblR5, exTblU]).2
     (exTblU, 1) [(exTblR5, 5), (exTblU, 6)] (by decide) (by decide)⟩

/-- Unfolding equation of the convergence loop. -/
lemma convergenceAux_cons (fs : List Finding) (r : Nat) (rest : List Nat)
    (prev : Option Nat) :
    convergenceAux fs (r :: rest) prev
      = convEntry fs r prev :: convergenceAux fs rest (some (roundTotal fs r)) :=
  rfl

/-- Consecutive entries of the convergence series: the later entry's trend
is computed from the earlier entry's total. -/
lemma convergenceAux_consecutive (fs : List Finding) :
    ∀ (rs : List Nat) (prev : Option Nat) (i : Nat) (p e : ConvEntry),
      (convergenceAux fs rs prev).get? i = some p →
      (convergenceAux fs rs prev).get? (i + 1) = some e →
      e.trend = trendOf (some p.total) e.total := by
  intro rs
  induction rs with
  | nil => intro prev i p e hp _; simp [convergenceAux] at hp
  | cons r rest ih =>
    intro prev i p e hp he
    rw [convergenceAux_cons] at hp he
    cases i with
    | zero =>
      rw [List.get?_cons_zero] at hp
      rw [List.get?_cons_succ] at he
      obtain rfl := Option.some.inj hp
      cases rest with
      | nil => simp [convergenceAux] at he
      | cons r2 rest2 =>
        rw [convergenceAux_cons, List.get?_cons_zero] at he
        obtain rfl := Option.some.inj he
        rfl
    | succ j =>
      rw [List.get?_cons_succ] at hp he
      exact ih (some (roundTotal fs r)) j p e hp he

/-- The rounds of the convergence series are exactly the input rounds. -/
lemma convergenceAux_map_round (fs : List Finding) :
    ∀ (rs : List Nat) (prev : Option Nat),
      (convergenceAux fs rs prev).map ConvEntry.round = rs := by
  intro rs
  induction rs with
  | nil => intro prev; rfl
  | cons r rest ih =>
    intro prev
    rw [convergenceAux_cons, List.map_cons, ih]
    rfl

/-- Every entry's total is the finding count of its round. -/
lemma convergenceAux_total (fs : List Finding) :
    ∀ (rs : List Nat) (prev : Option Nat), ∀ e ∈ convergenceAux fs rs prev,
      e.total = roundTotal fs e.round := by
  intro rs
  induction rs with
  | nil => intro prev e he; simp [convergenceAux] at he
  | cons r rest ih =>
    intro prev e he
    rw [convergenceAux_cons] at he
    rcases List.mem_cons.mp he with rfl | hmem
    · rfl
    · exact ih _ e hmem

/-- The sorted round list is strictly increasing. -/
lemma sortedRounds_sorted_lt (fs : List Finding) :
    List.Pairwise (· < ·) (sortedRounds fs) := by
  have hs : List.Sorted (· ≤ ·) (sortedRounds fs) :=
    List.sorted_insertionSort (· ≤ ·) (fs.map Finding.round).dedup
  have hn : (sortedRounds fs).Nodup :=
    (List.perm_insertionSort (· ≤ ·) (fs.map Finding.round).dedup).symm.nodup
      (List.nodup_dedup _)
  exact hs.lt_of_le hn

/-- Membership in the sorted round list is membership among the findings'
rounds. -/
lemma sortedRounds_mem (fs : List Finding) (r : Nat) :
    r ∈ sortedRounds fs ↔ r ∈ fs.map Finding.round :=
  (List.perm_insertionSort (· ≤ ·) (fs.map Finding.round).dedup).mem_iff.trans
    List.mem_dedup

/-- One incorporated finding of round `r`, for example documents. -/
def exFinding (r : Nat) : Finding :=
  { file := "f.md".data, round := r, finding_id := [], reviewer := none,
    severity := "P1".data, severity_raw := "P1".data, summary := [],
    disposition := "Incorporated".data,
    disposition_raw := "Incorporated".data, notes := [] }

/-- Ten findings in round 1 and four in round 2. -/
def exFindings : List Finding :=
  List.replicate 10 (exFinding 1) ++ List.replicate 4 (exFinding 2)

/-- Claim C1: the convergence series runs over the observed rounds sorted
ascending; the first entry has no trend; each later entry's trend is the
percentage change against the immediately preceding entry's total — no
trend when that total is zero, a down trend of the absolute change when it
is non-positive, an up trend when positive; and for totals 10 (round 1)
and 4 (round 2) the series is round 1 with no trend, round 2 down 60%. -/
theorem convergence_series_spec (fs : List Finding) :
    (∀ e, (convergence fs).head? = some e → e.trend = Trend.dash) ∧
    (∀ i p e, (convergence fs).get? i = some p →
      (convergence fs).get? (i + 1) = some e →
      (p.total = 0 → e.trend = Trend.dash) ∧
      (0 < p.total →
        (((e.total : ℚ) - (p.total : ℚ)) / (p.total : ℚ) * 100 ≤ 0 →
          e.trend = Trend.down
            |((e.total : ℚ) - (p.total : ℚ)) / (p.total : ℚ) * 100|) ∧
        (0 < ((e.total : ℚ) - (p.total : ℚ)) / (p.total : ℚ) * 100 →
          e.trend = Trend.up
            (((e.total : ℚ) - (p.total : ℚ)) / (p.total : ℚ) * 100)))) ∧
    List.Pairwise (· < ·) ((convergence fs).map ConvEntry.round) ∧
    (∀ r, r ∈ (convergence fs).map ConvEntry.round ↔ r ∈ fs.map Finding.round) ∧
    (∀ e ∈ convergence fs, e.total = roundTotal fs e.round) ∧
    convergence exFindings
      = [{ round := 1, total := 10, incorporated := 10, not_incorporated := 0,
           deferred := 0, na := 0, trend := Trend.dash },
         { round := 2, total := 4, incorporated := 4, not_incorporated := 0,
           deferred := 0, na := 0, trend := Trend.down 60 }] := by
  refine ⟨?_, ?_, ?_, ?_, ?_, ?_⟩
  rotate_right
  · have h1 : sortedRounds exFindings = [1, 2] := by decide
    have h10 : roundTotal exFindings 1 = 10 := by decide
    have h4 : roundTotal exFindings 2 = 4 := by decide
    have hI1 : dispCount exFindings 1 "Incorporated".data = 10 := by decide
    have hN1 : dispCount exFindings 1 "Not Incorporated".data = 0 := by decide
    have hD1 : dispCount exFindings 1 "Deferred".data = 0 := by decide
    have hA1 : dispCount exFindings 1 "N/A".data = 0 := by decide
    have hI2 : dispCount exFindings 2 "Incorporated".data = 4 := by decide
    have hN2 : dispCount exFindings 2 "Not Incorporated".data = 0 := by decide
    have hD2 : dispCount exFindings 2 "Deferred".data = 0 := by decide
    have hA2 : dispCount exFindings 2 "N/A".data = 0 := by decide
    have hdash : trendOf none 10 = Trend.dash := rfl
    have hdown : trendOf (some 10) 4 = Trend.down 60 := by
      simp only [trendOf]
      rw [if_pos (by norm_num), if_pos (by norm_num)]
      congr 1
      norm_num
    rw [convergence, h1, convergenceAux_cons, convergenceAux_cons]
    simp only [convergenceAux, convEntry, h10, h4, hI1, hN1, hD1, hA1,
      hI2, hN2, hD2, hA2, hdash, hdown]
  · intro e he
    rw [convergence] at he
    cases hrs : sortedRounds fs with
    | nil => rw [hrs] at he; simp [convergenceAux] at he
    | cons r rest =>
      rw [hrs, convergenceAux_cons, List.head?_cons] at he
      obtain rfl := Option.some.inj he
      rfl
  · intro i p e hp he
    have htr := convergenceAux_consecutive fs (sortedRounds fs) none i p e hp he
    constructor
    · intro hz
      rw [htr, hz]
      rfl
    · intro hpos
      constructor
      · intro hle
        rw [htr]
        simp only [trendOf]
        rw [if_pos (by exact_mod_cast hpos), if_pos hle]
      · intro hgt
        rw [htr]
        simp only [trendOf]
        rw [if_pos (by exact_mod_cast hpos), if_neg (not_le.mpr hgt)]
  · rw [convergence, convergenceAux_map_round]
    exact sortedRounds_sorted_lt fs
  · intro r
    rw [convergence, convergenceAux_map_round]
    exact sortedRounds_mem fs r
  · intro e he
    exact convergenceAux_total fs (sortedRounds fs) none e he

/-- Witness for C1 on the ten-then-four example. -/
theorem convergence_series_spec_witness :
    ({ round := 1, total := 10, incorporated := 10, not_incorporated := 0,
       deferred := 0, na := 0, trend := Trend.dash } : ConvEntry).trend
      = Trend.dash ∧
    ({ round := 2, total := 4, incorporated := 4, not_incorporated := 0,
       deferred := 0, na := 0, trend := Trend.down 60 } : ConvEntry).trend
      = Trend.down |(((4 : ℚ) - (10 : ℚ)) / (10 : ℚ)) * 100| := by
  have h := convergence_series_spec exFindings
  have hconv := h.2.2.2.2.2
  refine ⟨h.1 _ (by rw [hconv]; rfl), ?_⟩
  have h2 := (h.2.1 0
    { round := 1, total := 10, incorporated := 10, not_incorporated := 0,
      deferred := 0, na := 0, trend := Trend.dash }
    { round := 2, total := 4, incorporated := 4, not_incorporated := 0,
      deferred := 0, na := 0, trend := Trend.down 60 }
    (by rw [hconv]; rfl) (by rw [hconv]; rfl)).2 (by decide)
  exact h2.1 (by norm_num)

/-- States whose stored header cells are necessarily non-empty. -/
def stateWF : ScanState → Prop
  | ScanState.expectSep _ _ _ cells => cells ≠ []
  | ScanState.inData _ _ _ cells _ _ => cells ≠ []
  | _ => True

/-- Claim C8 invariant over the scan: every emitted table with empty
header cells has no rows and no separator line. -/
lemma scanLines_headerless_inv :
    ∀ (lines : List (List Char)) (pos : Nat) (st : ScanState), stateWF st →
      ∀ t ∈ scanLines pos st lines, t.header_cells = [] →
        t.rows = [] ∧ t.separator_line = none := by
  intro lines
  induction lines with
  | nil =>
    intro pos st hwf t ht hempty
    cases st with
    | scanning => simp [scanLines, finalizeState] at ht
    | skipBlank r sec =>
      simp only [scanLines, finalizeState, List.mem_singleton] at ht
      subst ht
      exact ⟨rfl, rfl⟩
    | expectSep r sec hl cells =>
      simp only [scanLines, finalizeState, List.mem_singleton] at ht
      subst ht
      exact ⟨rfl, rfl⟩
    | inData r sec hl cells sl rows =>
      simp only [scanLines, finalizeState, List.mem_singleton] at ht
      subst ht
      exact absurd hempty hwf
  | cons l ls ih =>
    intro pos st hwf t ht hempty
    cases st with
    | scanning =>
      cases hmh : match_disposition_header l with
      | some r =>
        simp only [scanLines, stepLine, hmh, List.nil_append] at ht
        exact ih (pos + 1) (ScanState.skipBlank r pos) trivial t ht hempty
      | none =>
        simp only [scanLines, stepLine, hmh, List.nil_append] at ht
        exact ih (pos + 1) ScanState.scanning trivial t ht hempty
    | skipBlank r sec =>
      by_cases hb : pyStrip l = []
      · simp only [scanLines, stepLine, if_pos hb, List.nil_append] at ht
        exact ih (pos + 1) (ScanState.skipBlank r sec) trivial t ht hempty
      · cases hpr : parse_table_row l with
        | some cells =>
          cases cells with
          | nil =>
            simp only [scanLines, stepLine, if_neg hb, hpr,
              List.cons_append, List.nil_append, List.mem_cons] at ht
            rcases ht with rfl | ht
            · exact ⟨rfl, rfl⟩
            · exact ih (pos + 1) ScanState.scanning trivial t ht hempty
          | cons c cs =>
            simp only [scanLines, stepLine, if_neg hb, hpr,
              List.nil_append] at ht
            exact ih (pos + 1) (ScanState.expectSep r sec pos (c :: cs))
              (List.cons_ne_nil c cs) t ht hempty
        | none =>
          simp only [scanLines, stepLine, if_neg hb, hpr,
            List.cons_append, List.nil_append, List.mem_cons] at ht
          rcases ht with rfl | ht
          · exact ⟨rfl, rfl⟩
          · exact ih (pos + 1) ScanState.scanning trivial t ht hempty
    | expectSep r sec hl cells =>
      cases hpr : parse_table_row l with
      | some sepCells =>
        by_cases hsep : sepCells ≠ [] ∧ is_separator_row sepCells
        · simp only [scanLines, stepLine, hpr, if_pos hsep,
            List.nil_append] at ht
          exact ih (pos + 1) (ScanState.inData r sec hl cells pos []) hwf
            t ht hempty
        · simp only [scanLines, stepLine, hpr, if_neg hsep,
            List.cons_append, List.nil_append, List.mem_cons] at ht
          rcases ht with rfl | ht
          · exact ⟨rfl, rfl⟩
          · exact ih (pos + 1) ScanState.scanning trivial t ht hempty
      | none =>
        simp only [scanLines, stepLine, hpr, List.cons_append,
          List.nil_append, List.mem_cons] at ht
        rcases ht with rfl | ht
        · exact ⟨rfl, rfl⟩
        · exact ih (pos + 1) ScanState.scanning trivial t ht hempty
    | inData r sec hl cells sl rows =>
      cases hpr : parse_table_row l with
      | some rowCells =>
        by_cases hsep : is_separator_row rowCells = true
        · simp only [scanLines, stepLine, hpr, if_pos hsep,
            List.nil_append] at ht
          exact ih (pos + 1) (ScanState.inData r sec hl cells sl rows) hwf
            t ht hempty
        · simp only [scanLines, stepLine, hpr, if_neg hsep,
            List.nil_append] at ht
          exact ih (pos + 1)
            (ScanState.inData r sec hl cells sl (rows ++ [⟨pos, rowCells⟩]))
            hwf t ht hempty
      | none =>
        cases hmh : match_disposition_header l with
        | some r2 =>
          simp only [scanLines, stepLine, hpr, hmh, List.cons_append,
            List.nil_append, List.mem_cons] at ht
          rcases ht with rfl | ht
          · exact absurd hempty hwf
          · exact ih (pos + 1) (ScanState.skipBlank r2 pos) trivial t ht hempty
        | none =>
          simp only [scanLines, stepLine, hpr, hmh, List.cons_append,
            List.nil_append, List.mem_cons] at ht
          rcases ht with rfl | ht
          · exact absurd hempty hwf
          · exact ih (pos + 1) ScanState.scanning trivial t ht hempty

/-- Claim C8: every table located by the table locator with an empty
header cell list has no rows and no separator line; such a headerless
table yields zero validator errors and contributes no findings during
aggregation. -/
theorem headerless_table_invariant (lines : List (List Char)) (t : Table)
    (ht : t ∈ find_disposition_tables lines) (hempty : t.header_cells = []) :
    t.rows = [] ∧ t.separator_line = none ∧ validate_table t = [] ∧
    (∀ file ts ur, findingsLoop file (t :: ts) ur = findingsLoop file ts ur) := by
  obtain ⟨hrows, hsep⟩ :=
    scanLines_headerless_inv lines 0 ScanState.scanning trivial t ht hempty
  refine ⟨hrows, hsep, ?_, ?_⟩
  · simp only [validate_table]
    rw [if_pos hempty]
  · intro file ts ur
    rw [findingsLoop, if_pos hempty]

/-- Witness for C8: `## Round 2 Review Disposition` followed immediately
by another heading yields a headerless table with no rows, no separator,
zero errors and no findings. -/
theorem headerless_table_invariant_witness :
    (headerlessTable (some 2) 0).rows = [] ∧
    (headerlessTable (some 2) 0).separator_line = none ∧
    validate_table (headerlessTable (some 2) 0) = [] ∧
    (∀ file ts ur,
      findingsLoop file (headerlessTable (some 2) 0 :: ts) ur
        = findingsLoop file ts ur) :=
  headerless_table_invariant
    ["## Round 2 Review Disposition".data, "## Round 3 Review Disposition".data]
    (headerlessTable (some 2) 0) (by decide) (by decide)

/-- A character that lowercases to `#` is not whitespace. -/
lemma toLower_hash_not_space (c : Char) (h : c.toLower = '#') :
    pyIsSpace c = false := by
  by_contra hws
  have hws' : pyIsSpace c = true := by
    revert hws
    cases pyIsSpace c <;> simp
  simp only [pyIsSpace, Bool.or_eq_true, beq_iff_eq] at hws'
  rcases hws' with ((((rfl | rfl) | rfl) | rfl) | rfl) | rfl <;>
    exact absurd h (by decide)

/-- A character that lowercases to `#` is not the pipe. -/
lemma toLower_hash_ne_pipe (c : Char) (h : c.toLower = '#') : c ≠ '|' := by
  intro heq
  rw [heq] at h
  exact absurd h (by decide)

/-- A matched heading line starts with two characters lowercasing to `#`. -/
lemma header_shape (line : List Char) (r : Option Nat)
    (h : match_disposition_header line = some r) :
    ∃ c1 c2 t, line = c1 :: c2 :: t ∧ c1.toLower = '#' ∧ c2.toLower = '#' := by
  have hdata : "##".data = ['#', '#'] := rfl
  rw [match_disposition_header, hdata] at h
  cases line with
  | nil => simp [stripCI] at h
  | cons c1 rest =>
    cases rest with
    | nil =>
      rw [stripCI] at h
      by_cases h1 : c1.toLower = '#'.toLower
      · rw [if_pos h1, stripCI] at h
        exact absurd h (by simp)
      · rw [if_neg h1] at h
        exact absurd h (by simp)
    | cons c2 t =>
      rw [stripCI] at h
      by_cases h1 : c1.toLower = '#'.toLower
      · rw [if_pos h1, stripCI] at h
        by_cases h2 : c2.toLower = '#'.toLower
        · exact ⟨c1, c2, t, rfl, h1, h2⟩
        · rw [if_neg h2] at h
          exact absurd h (by simp)
      · rw [if_neg h1] at h
        exact absurd h (by simp)

/-- Dropping whitespace from the front cannot remove a trailing
non-whitespace character. -/
lemma dropWhile_append_last (c : Char) (hc : pyIsSpace c = false) :
    ∀ y : List Char, ∃ w, (y ++ [c]).dropWhile pyIsSpace = w ++ [c] := by
  intro y
  induction y with
  | nil =>
    refine ⟨[], ?_⟩
    simp [List.dropWhile_cons, hc]
  | cons a y ih =>
    by_cases ha : pyIsSpace a = true
    · obtain ⟨w, hw⟩ := ih
      refine ⟨w, ?_⟩
      simpa [List.dropWhile_cons, ha] using hw
    · refine ⟨a :: y, ?_⟩
      simp [List.dropWhile_cons, ha]

/-- Stripping a line whose first character is non-whitespace keeps that
character in front. -/
lemma pyStrip_cons_of_not_space (c : Char) (t : List Char)
    (hc : pyIsSpace c = false) : ∃ w, pyStrip (c :: t) = c :: w := by
  rw [pyStrip, List.dropWhile_cons, if_neg (by simp [hc])]
  rw [stripEnd, List.reverse_cons]
  obtain ⟨w, hw⟩ := dropWhile_append_last c hc t.reverse
  refine ⟨w.reverse, ?_⟩
  rw [hw, List.reverse_append]
  rfl

/-- A heading line is not blank. -/
lemma header_not_blank (line : List Char) (r : Option Nat)
    (h : match_disposition_header line = some r) : pyStrip line ≠ [] := by
  obtain ⟨c1, c2, t, rfl, h1, _⟩ := header_shape line r h
  obtain ⟨w, hw⟩ := pyStrip_cons_of_not_space c1 (c2 :: t)
    (toLower_hash_not_space c1 h1)
  rw [hw]
  exact List.cons_ne_nil c1 w

/-- A heading line does not parse as a table row. -/
lemma header_parse_none (line : List Char) (r : Option Nat)
    (h : match_disposition_header line = some r) :
    parse_table_row line = none := by
  obtain ⟨c1, c2, t, rfl, h1, _⟩ := header_shape line r h
  obtain ⟨w, hw⟩ := pyStrip_cons_of_not_space c1 (c2 :: t)
    (toLower_hash_not_space c1 h1)
  rw [parse_table_row, hw]
  exact if_neg (toLower_hash_ne_pipe c1 h1)

/-- A parsed row comes from a non-blank line. -/
lemma parse_some_not_blank (line : List Char) (cells : List (List Char))
    (h : parse_table_row line = some cells) : pyStrip line ≠ [] := by
  intro hb
  rw [parse_table_row, hb] at h
  exact absurd h (by simp)

/-- Claim C10: a heading whose expected table is cut off by another
heading consumes that second heading without re-testing it: two headings
on consecutive lines yield one headerless table for the first and nothing
for the second, and a heading arriving where the separator row was
expected is likewise consumed, so in both cases the scan resumes only
after the failing line. -/
theorem heading_not_retested_spec :
    (∀ (pos : Nat) (h1 h2 : List Char) (rest : List (List Char))
        (r1 r2 : Option Nat),
      match_disposition_header h1 = some r1 →
      match_disposition_header h2 = some r2 →
      scanLines pos ScanState.scanning (h1 :: h2 :: rest)
        = headerlessTable r1 pos
            :: scanLines (pos + 2) ScanState.scanning rest) ∧
    (∀ (pos : Nat) (h1 hdr h3 : List Char) (rest : List (List Char))
        (r1 r3 : Option Nat) (c : List Char) (cs : List (List Char)),
      match_disposition_header h1 = some r1 →
      parse_table_row hdr = some (c :: cs) →
      match_disposition_header h3 = some r3 →
      scanLines pos ScanState.scanning (h1 :: hdr :: h3 :: rest)
        = headerlessTable r1 pos
            :: scanLines (pos + 3) ScanState.scanning rest) := by
  constructor
  · intro pos h1 h2 rest r1 r2 hm1 hm2
    rw [scanLines]
    simp only [stepLine, hm1, List.nil_append]
    rw [scanLines]
    simp only [stepLine, if_neg (header_not_blank h2 r2 hm2),
      header_parse_none h2 r2 hm2, List.cons_append, List.nil_append]
  · intro pos h1 hdr h3 rest r1 r3 c cs hm1 hp hm3
    rw [scanLines]
    simp only [stepLine, hm1, List.nil_append]
    rw [scanLines]
    simp only [stepLine, if_neg (parse_some_not_blank hdr (c :: cs) hp), hp,
      List.nil_append]
    rw [scanLines]
    simp only [stepLine, header_parse_none h3 r3 hm3, List.cons_append,
      List.nil_append]

/-- Witness for C10: two consecutive headings followed by a well-formed
table produce only the first heading's headerless table; the table after
the second heading is not collected. -/
theorem heading_not_retested_spec_witness :
    scanLines 0 ScanState.scanning
      ["## Round 2 Review Disposition".data,
       "## Round 3 Review Disposition".data,
       "| Severity | Disposition |".data,
       "|--|--|".data,
       "| P0 | Incorporated |".data]
      = headerlessTable (some 2) 0
          :: scanLines 2 ScanState.scanning
            ["| Severity | Disposition |".data,
             "|--|--|".data,
             "| P0 | Incorporated |".data] ∧
    scanLines 2 ScanState.scanning
      ["| Severity | Disposition |".data,
       "|--|--|".data,
       "| P0 | Incorporated |".data] = [] :=
  ⟨heading_not_retested_spec.1 0
    "## Round 2 Review Disposition".data
    "## Round 3 Review Disposition".data
    ["| Severity | Disposition |".data, "|--|--|".data,
     "| P0 | Incorporated |".data]
    (some 2) (some 3) (by decide) (by decide),
   by decide⟩

/-! ### Round-trip of the row parser -/

/-- `"|".join(cells)` — the spec's rejoin of parsed cells. -/
def joinPipe : List (List Char) → List Char
  | [] => []
  | [c] => c
  | c :: c2 :: cs => c ++ '|' :: joinPipe (c2 :: cs)

/-- Rejoin trimmed cells with the delimiter and outer pipes, following the
spec's round-trip property. -/
def rejoinRow (cells : List (List Char)) : List Char :=
  '|' :: (joinPipe cells ++ ['|'])

/-- Dropping whitespace twice is dropping it once. -/
lemma dropWhile_pyIsSpace_idem (l : List Char) :
    (l.dropWhile pyIsSpace).dropWhile pyIsSpace = l.dropWhile pyIsSpace := by
  induction l with
  | nil => rfl
  | cons c cs ih =>
    cases hc : pyIsSpace c with
    | true => simp [List.dropWhile_cons, hc, ih]
    | false => simp [List.dropWhile_cons, hc]

/-- `stripEnd` is idempotent. -/
lemma stripEnd_idem (l : List Char) : stripEnd (stripEnd l) = stripEnd l := by
  rw [stripEnd, stripEnd, List.reverse_reverse, dropWhile_pyIsSpace_idem]

/-- `stripEnd` is a prefix of its input. -/
lemma stripEnd_prefix_self (l : List Char) : List.IsPrefix (stripEnd l) l := by
  refine ⟨(l.reverse.takeWhile pyIsSpace).reverse, ?_⟩
  have h : l.reverse.takeWhile pyIsSpace ++ l.reverse.dropWhile pyIsSpace
      = l.reverse := List.takeWhile_append_dropWhile ..
  have h2 := congrArg List.reverse h
  rw [List.reverse_append, List.reverse_reverse] at h2
  exact h2

/-- The head of a `dropWhile` result fails the predicate. -/
lemma head_dropWhile_false :
    ∀ (l : List Char) (c : Char) (w : List Char),
      l.dropWhile pyIsSpace = c :: w → pyIsSpace c = false := by
  intro l
  induction l with
  | nil => intro c w h; simp at h
  | cons a as ih =>
    intro c w h
    rw [List.dropWhile_cons] at h
    by_cases ha : pyIsSpace a = true
    · rw [if_pos ha] at h
      exact ih c w h
    · rw [if_neg ha] at h
      obtain ⟨rfl, -⟩ := List.cons.inj h
      exact Bool.not_eq_true _ ▸ ha

/-- `pyStrip` is idempotent. -/
lemma pyStrip_idem (l : List Char) : pyStrip (pyStrip l) = pyStrip l := by
  cases hm : pyStrip l with
  | nil => rfl
  | cons c w =>
    have hpre : List.IsPrefix (c :: w) (l.dropWhile pyIsSpace) := by
      rw [← hm, pyStrip]
      exact stripEnd_prefix_self _
    obtain ⟨t, ht⟩ := hpre
    have hc : pyIsSpace c = false :=
      head_dropWhile_false l c (w ++ t) (by rw [← ht]; rfl)
    rw [pyStrip, List.dropWhile_cons, if_neg (by simp [hc])]
    calc stripEnd (c :: w) = stripEnd (stripEnd (l.dropWhile pyIsSpace)) := by
          rw [← pyStrip, hm]
      _ = stripEnd (l.dropWhile pyIsSpace) := stripEnd_idem _
      _ = c :: w := by rw [← pyStrip, hm]

/-- Members of `pyStrip l` are members of `l`. -/
lemma mem_pyStrip (x : Char) (l : List Char) (h : x ∈ pyStrip l) : x ∈ l := by
  have h1 : x ∈ l.dropWhile pyIsSpace := (stripEnd_prefix_self _).subset h
  have h2 : l.takeWhile pyIsSpace ++ l.dropWhile pyIsSpace = l :=
    List.takeWhile_append_dropWhile ..
  rw [← h2]
  exact List.mem_append_right _ h1

/-- `splitOnChar` never returns the empty list. -/
lemma splitOnChar_ne_nil (sep : Char) :
    ∀ l : List Char, splitOnChar sep l ≠ [] := by
  intro l
  induction l with
  | nil => simp [splitOnChar]
  | cons c cs ih =>
    rw [splitOnChar]
    by_cases hc : c = sep
    · rw [if_pos hc]; simp
    · rw [if_neg hc]
      cases hs : splitOnChar sep cs with
      | nil => exact absurd hs ih
      | cons p ps => simp

/-- No piece produced by `splitOnChar` contains the separator. -/
lemma splitOnChar_not_mem (sep : Char) :
    ∀ (l : List Char) (part : List Char),
      part ∈ splitOnChar sep l → sep ∉ part := by
  intro l
  induction l with
  | nil =>
    intro part hp
    simp only [splitOnChar, List.mem_singleton] at hp
    subst hp
    simp
  | cons c cs ih =>
    intro part hp
    rw [splitOnChar] at hp
    by_cases hc : c = sep
    · rw [if_pos hc] at hp
      rcases List.mem_cons.mp hp with rfl | hmem
      · simp
      · exact ih part hmem
    · rw [if_neg hc] at hp
      cases hs : splitOnChar sep cs with
      | nil => exact absurd hs (splitOnChar_ne_nil sep cs)
      | cons p ps =>
        rw [hs] at hp
        rcases List.mem_cons.mp hp with rfl | hmem
        · intro hx
          rcases List.mem_cons.mp hx with rfl | hxp
          · exact hc rfl
          · exact ih p (hs ▸ List.mem_cons_self p ps) hxp
        · exact ih part (hs ▸ List.mem_cons_of_mem p hmem)

/-- Splitting a separator-free piece followed by a separator peels off the
piece. -/
lemma splitOnChar_append (sep : Char) :
    ∀ (pfx rest : List Char), sep ∉ pfx →
      splitOnChar sep (pfx ++ sep :: rest) = pfx :: splitOnChar sep rest := by
  intro pfx
  induction pfx with
  | nil =>
    intro rest _
    rw [List.nil_append, splitOnChar, if_pos rfl]
  | cons c p ih =>
    intro rest hmem
    have hc : c ≠ sep := fun h => hmem (h ▸ List.mem_cons_self c p)
    rw [List.cons_append, splitOnChar, if_neg hc,
      ih rest (fun h => hmem (List.mem_cons_of_mem c h))]

/-- Splitting the rejoined body: separator-free cells come back followed
by the empty piece of the trailing pipe. -/
lemma splitOnChar_joinPipe :
    ∀ cells : List (List Char), cells ≠ [] →
      (∀ c ∈ cells, '|' ∉ c) →
      splitOnChar '|' (joinPipe cells ++ ['|']) = cells ++ [[]] := by
  intro cells
  induction cells with
  | nil => intro h; exact absurd rfl h
  | cons c cs ih =>
    intro _ hmem
    cases cs with
    | nil =>
      rw [joinPipe, splitOnChar_append '|' c []
        (hmem c (List.mem_cons_self c []))]
      rfl
    | cons c2 cs2 =>
      rw [joinPipe, List.append_assoc, List.cons_append,
        splitOnChar_append '|' c _ (hmem c (List.mem_cons_self c _)),
        ih (List.cons_ne_nil c2 cs2)
          (fun x hx => hmem x (List.mem_cons_of_mem c hx))]
      rfl

/-- `stripEnd` keeps a trailing non-whitespace character. -/
lemma stripEnd_concat_not_space (x : List Char) (b : Char)
    (hb : pyIsSpace b = false) : stripEnd (x ++ [b]) = x ++ [b] := by
  rw [stripEnd, List.reverse_append, List.reverse_cons, List.reverse_nil,
    List.nil_append, List.cons_append, List.nil_append, List.dropWhile_cons,
    if_neg (by simp [hb]), List.reverse_cons, List.reverse_reverse]

/-- A mapped function that fixes every member leaves the list unchanged. -/
lemma map_eq_self_of_mem (f : List Char → List Char) :
    ∀ l : List (List Char), (∀ x ∈ l, f x = x) → l.map f = l := by
  intro l
  induction l with
  | nil => intro _; rfl
  | cons x xs ih =>
    intro h
    rw [List.map_cons, h x (List.mem_cons_self x xs),
      ih (fun y hy => h y (List.mem_cons_of_mem x hy))]

/-- Members survive the leading-blank drop. -/
lemma dropLeadingEmpty_subset (l : List (List Char)) (y : List Char)
    (h : y ∈ dropLeadingEmpty l) : y ∈ l := by
  cases l with
  | nil => exact h
  | cons p ps =>
    rw [dropLeadingEmpty] at h
    by_cases hp : pyStrip p = []
    · rw [if_pos hp] at h
      exact List.mem_cons_of_mem p h
    · rw [if_neg hp] at h
      exact h

/-- Members survive the trailing-blank drop. -/
lemma dropTrailingEmpty_subset (l : List (List Char)) (y : List Char)
    (h : y ∈ dropTrailingEmpty l) : y ∈ l := by
  rw [dropTrailingEmpty] at h
  cases hl : l.getLast? with
  | none => rw [hl] at h; exact h
  | some p =>
    rw [hl] at h
    simp only [] at h
    by_cases hp : pyStrip p = []
    · rw [if_pos hp] at h
      exact List.mem_of_mem_dropLast h
    · rw [if_neg hp] at h
      exact h

/-- Claim C4, counterexample: the empty accepted row `|` parses to an
empty cell list, but rejoining and re-parsing yields one empty cell. -/
theorem parse_rejoin_counterexample :
    parse_table_row "|".data = some [] ∧
    parse_table_row (rejoinRow []) = some [[]] ∧
    (some [[]] : Option (List (List Char))) ≠ some [] := by
  decide

/-- Claim C4, amended: for every accepted line whose parsed cell list is
non-empty, rejoining the trimmed cells with the pipe delimiter and outer
pipes and parsing again reproduces the same cell list. -/
theorem parse_rejoin_roundtrip (line : List Char) (cells : List (List Char))
    (hp : parse_table_row line = some cells) (hne : cells ≠ []) :
    parse_table_row (rejoinRow cells) = some cells := by
  have hfacts : ∀ x ∈ cells, pyStrip x = x ∧ '|' ∉ x := by
    rw [parse_table_row] at hp
    cases hs : pyStrip line with
    | nil =>
      rw [hs] at hp
      exact absurd hp (by simp)
    | cons c cs =>
      rw [hs] at hp
      simp only [] at hp
      by_cases hc : c = '|'
      · rw [if_pos hc] at hp
        have hcells := Option.some.inj hp
        intro x hx
        rw [← hcells] at hx
        obtain ⟨y, hy, rfl⟩ := List.mem_map.mp hx
        have hy2 : y ∈ splitOnChar '|' (c :: cs) :=
          dropLeadingEmpty_subset _ y (dropTrailingEmpty_subset _ y hy)
        exact ⟨pyStrip_idem y,
          fun hxm => splitOnChar_not_mem '|' _ y hy2 (mem_pyStrip _ _ hxm)⟩
      · rw [if_neg hc] at hp
        exact absurd hp (by simp)
  have hstrip : pyStrip (rejoinRow cells) = '|' :: (joinPipe cells ++ ['|']) := by
    rw [rejoinRow, pyStrip, List.dropWhile_cons, if_neg (by decide)]
    rw [show '|' :: (joinPipe cells ++ ['|'])
        = ('|' :: joinPipe cells) ++ ['|'] from rfl]
    exact stripEnd_concat_not_space _ '|' (by decide)
  rw [parse_table_row, hstrip]
  simp only [if_true]
  have hsplit : splitOnChar '|' ('|' :: (joinPipe cells ++ ['|']))
      = [] :: (cells ++ [[]]) := by
    rw [splitOnChar, if_pos rfl,
      splitOnChar_joinPipe cells hne (fun c hc => (hfacts c hc).2)]
  rw [hsplit]
  rw [show dropLeadingEmpty ([] :: (cells ++ [[]])) = cells ++ [[]] from by
    rw [dropLeadingEmpty, if_pos (by rfl)]]
  have hdt : dropTrailingEmpty (cells ++ [[]]) = cells := by
    rw [dropTrailingEmpty, List.getLast?_concat]
    simp only []
    rw [if_pos (by rfl)]
    exact List.dropLast_concat ..
  rw [hdt, map_eq_self_of_mem pyStrip cells (fun x hx => (hfacts x hx).1)]

/-- Witness for the amended C4 round-trip at a concrete row. -/
theorem parse_rejoin_roundtrip_witness :
    parse_table_row "| a | b |".data = some ["a".data, "b".data] ∧
    parse_table_row (rejoinRow ["a".data, "b".data])
      = some ["a".data, "b".data] :=
  ⟨by decide,
   parse_rejoin_roundtrip "| a | b |".data ["a".data, "b".data]
     (by decide) (by decide)⟩

end Dispositions
